import Mathlib

/-!
Shallow embedding of `crates/ui/src/list/list.rs` (the `List<D>` widget).

The widget state (`ListState` below) mirrors the fields of `struct List`
that the interaction logic reads and writes: `selected_index`,
`right_clicked_index`, `loading`, `last_query`.  Calls into the delegate
(`ListDelegate`), the scroll handle and the query input, as well as
`cx.notify()`, are modelled as an emitted list of `Effect`s; the delegate's
`items_count()` is passed in as a parameter `count` since the core never
caches it.  Rust strings are embedded as `List Char` (so that `str::trim`
has a kernel-computable counterpart `trimChars`).  The asynchronous search
lifecycle (`_search_task`, `cx.spawn`, `Timer::after`) is modelled by an
operational step function over a `Sys` state that tracks every supervising
task ever spawned together with its cancellation status: assigning
`self._search_task` drops, and thereby cancels, the previous task, so the
`InputEvent::Change` transition marks the previously current task
cancelled, and a cancelled task can never take another step.
-/

namespace GpuiList

/-- A Rust string, embedded as its character sequence. -/
abbrev Query := List Char

/-- One step of `str::trim` from the left: drop leading whitespace. -/
def trimLeftChars : Query → Query
  | [] => []
  | c :: cs => if c.isWhitespace then trimLeftChars cs else c :: cs

/-- Model of `str::trim`: drop whitespace from both ends of the string. -/
def trimChars (s : Query) : Query :=
  (trimLeftChars (trimLeftChars s).reverse).reverse

/-- The fields of `struct List` that the interaction logic manipulates. -/
structure ListState where
  selected_index : Option Nat
  right_clicked_index : Option Nat
  loading : Bool
  last_query : Option Query
deriving DecidableEq, Repr, Inhabited

/-- Externally observable calls made by the handlers: delegate callbacks,
scroll directives, query-input loading updates and `cx.notify()`.
`commitQuery` marks the assignment `this.last_query = Some(text)` performed
by the supervising task, so that its ordering relative to the scroll reset
is observable in the effect trace. -/
inductive Effect where
  | delegateSetSelectedIndex (ix : Option Nat)
  | delegateConfirm (ix : Option Nat)
  | delegateCancel
  | delegatePerformSearch (query : Query)
  | scrollToItem (ix : Nat)
  | commitQuery (q : Query)
  | inputSetLoading (b : Bool)
  | notify
deriving DecidableEq, Repr, Inhabited

/-- Initial `List` state as built by `List::new`. -/
def initState : ListState :=
  { selected_index := none, right_clicked_index := none,
    loading := false, last_query := none }

/-- Model of `List::set_loading`: store the flag, forward it to the query input,
then `cx.notify()`. -/
def set_loading (b : Bool) (s : ListState) : ListState × List Effect :=
  ({ s with loading := b }, [Effect.inputSetLoading b, Effect.notify])

/-- Model of `List::set_selected_index` (public): store the index and notify the
delegate; no bounds check. -/
def set_selected_index (ix : Option Nat) (s : ListState) : ListState × List Effect :=
  ({ s with selected_index := ix }, [Effect.delegateSetSelectedIndex ix])

/-- Model of `List::scroll_to_selected_item`: scroll directive when an index is
selected, nothing otherwise. -/
def scroll_to_selected_item (s : ListState) : List Effect :=
  match s.selected_index with
  | some ix => [Effect.scrollToItem ix]
  | none => []

/-- Model of `List::on_action_cancel`: clear the selection (through
`set_selected_index`), call the delegate's cancel, notify. -/
def on_action_cancel (s : ListState) : ListState × List Effect :=
  let p := set_selected_index none s
  (p.1, p.2 ++ [Effect.delegateCancel, Effect.notify])

/-- Model of `List::on_action_confirm`: early return when the item count is 0,
otherwise forward the current selected index to the delegate's confirm
and notify. -/
def on_action_confirm (count : Nat) (s : ListState) : ListState × List Effect :=
  if count = 0 then (s, [])
  else (s, [Effect.delegateConfirm s.selected_index, Effect.notify])

/-- Model of `List::on_action_select_prev`: early return when the item count is 0;
`selected_index.unwrap_or(0)`, decrement when positive else wrap to
`count - 1`; notify the delegate, scroll to the selected item, notify. -/
def on_action_select_prev (count : Nat) (s : ListState) : ListState × List Effect :=
  if count = 0 then (s, [])
  else
    let selected_index := s.selected_index.getD 0
    let s1 := { s with selected_index :=
      if selected_index > 0 then some (selected_index - 1) else some (count - 1) }
    (s1, [Effect.delegateSetSelectedIndex s1.selected_index]
          ++ scroll_to_selected_item s1 ++ [Effect.notify])

/-- Model of `List::on_action_select_next`: early return when the item count is 0;
from `Some(i)` increment when `i < count - 1` else wrap to 0, from `None`
select 0; notify the delegate, scroll to the selected item, notify. -/
def on_action_select_next (count : Nat) (s : ListState) : ListState × List Effect :=
  if count = 0 then (s, [])
  else
    let s1 := { s with selected_index :=
      match s.selected_index with
      | some selected_index =>
          if selected_index < count - 1 then some (selected_index + 1) else some 0
      | none => some 0 }
    (s1, [Effect.delegateSetSelectedIndex s1.selected_index]
          ++ scroll_to_selected_item s1 ++ [Effect.notify])

/-- The left mouse-down listener of `render_list_item` on row `ix`:
clear `right_clicked_index`, set `selected_index = Some(ix)` directly
(without the delegate notification), then run the confirm action. -/
def on_left_mouse_down (count : Nat) (ix : Nat) (s : ListState) : ListState × List Effect :=
  on_action_confirm count { s with right_clicked_index := none, selected_index := some ix }

/-- The right mouse-down listener of `render_list_item` on row `ix`:
set `right_clicked_index = Some(ix)` and notify. -/
def on_right_mouse_down (ix : Nat) (s : ListState) : ListState × List Effect :=
  ({ s with right_clicked_index := some ix }, [Effect.notify])

/-- The `on_mouse_down_out` listener of `render`: it is attached only when
`right_clicked_index.is_some()`, and clears it and notifies. -/
def on_mouse_down_out (s : ListState) : ListState × List Effect :=
  if s.right_clicked_index.isSome then
    ({ s with right_clicked_index := none }, [Effect.notify])
  else (s, [])

/-- State after one `SelectNext` action. -/
def selectNextState (count : Nat) (s : ListState) : ListState :=
  (on_action_select_next count s).1

/-- State after one `SelectPrev` action. -/
def selectPrevState (count : Nat) (s : ListState) : ListState :=
  (on_action_select_prev count s).1

/-! The asynchronous search lifecycle.

`on_query_input_event` handles `InputEvent::Change` by trimming the text,
comparing it against `last_query`, setting the loading flag, invoking the
delegate's `perform_search` and replacing `self._search_task` with a fresh
supervising task spawned by `cx.spawn`.  The spawned future suspends twice:
at `search.await` and at `Timer::after(100ms).await`.  `Sys` records every
supervising task ever spawned (its generation is its position in `tasks`);
replacing `_search_task` drops the previous `Task`, which in gpui cancels
the spawned future, modelled by the `cancelled` flag.  The environment
drives resumption through the events `searchDone` (the inner search
completed and the task runs its first segment) and `timerFire` (the 100 ms
timer elapsed and the task runs its final segment); time is in
milliseconds and advances through `tick`. -/

/-- Where a supervising task is suspended (or that it finished). -/
inductive Phase where
  | awaitSearch
  | awaitTimer (doneAt : Nat)
  | finished
deriving DecidableEq, Repr, Inhabited

/-- One supervising task spawned by `on_query_input_event`. -/
structure TaskState where
  text : Query
  phase : Phase
  cancelled : Bool
deriving DecidableEq, Repr, Inhabited

/-- The widget state together with the task bookkeeping and a clock. -/
structure Sys where
  ls : ListState
  time : Nat
  tasks : List TaskState
  current : Option Nat
deriving DecidableEq, Repr, Inhabited

/-- The system as built by `List::new`: no task spawned yet. -/
def initSys : Sys :=
  { ls := initState, time := 0, tasks := [], current := none }

/-- Update the task of generation `g` (no-op past the end). -/
def setTask (g : Nat) (f : TaskState → TaskState) (ts : List TaskState) : List TaskState :=
  match g, ts with
  | _, [] => []
  | 0, t :: ts => f t :: ts
  | g + 1, t :: ts => t :: setTask g f ts

/-- Dropping the previous `_search_task` cancels its future. -/
def cancelTask (cur : Option Nat) (ts : List TaskState) : List TaskState :=
  match cur with
  | none => ts
  | some g => setTask g (fun t => { t with cancelled := true }) ts

/-- The `InputEvent::Change(text)` arm of `on_query_input_event`: trim,
drop the event when the trimmed text equals `last_query`, otherwise set
loading, call `perform_search`, and replace `_search_task` with a new
supervising task (cancelling the previous one). -/
def on_change (raw : Query) (sys : Sys) : Sys × List Effect :=
  let text := trimChars raw
  if sys.ls.last_query = some text then (sys, [])
  else
    let p := set_loading true sys.ls
    ({ ls := p.1, time := sys.time,
       tasks := cancelTask sys.current sys.tasks
                  ++ [{ text := text, phase := Phase.awaitSearch, cancelled := false }],
       current := some sys.tasks.length },
     p.2 ++ [Effect.delegatePerformSearch text])

/-- First segment of the supervising task, run when `search.await`
returns: scroll to item 0 and record the trimmed text as `last_query`,
then start the 100 ms timer. -/
def on_search_done (g : Nat) (sys : Sys) : Option (Sys × List Effect) :=
  match sys.tasks[g]? with
  | some t =>
    match t.cancelled, t.phase with
    | false, Phase.awaitSearch =>
      some ({ sys with
                ls := { sys.ls with last_query := some t.text }
                tasks := setTask g (fun t0 => { t0 with phase := Phase.awaitTimer sys.time })
                  sys.tasks },
            [Effect.scrollToItem 0, Effect.commitQuery t.text])
    | _, _ => none
  | none => none

/-- Final segment of the supervising task, run when the 100 ms timer
fires: clear the loading flag.  The timer was started at `doneAt`, so it
can only fire once `doneAt + 100 ≤ time`. -/
def on_timer_fire (g : Nat) (sys : Sys) : Option (Sys × List Effect) :=
  match sys.tasks[g]? with
  | some t =>
    match t.cancelled, t.phase with
    | false, Phase.awaitTimer doneAt =>
      if doneAt + 100 ≤ sys.time then
        let p := set_loading false sys.ls
        some ({ sys with
                  ls := p.1
                  tasks := setTask g (fun t0 => { t0 with phase := Phase.finished }) sys.tasks },
              p.2)
      else none
    | _, _ => none
  | none => none

/-- The events `on_query_input_event` dispatches on (`InputEvent`). -/
inductive InputEv where
  | change (raw : Query)
  | pressEnter
  | other
deriving DecidableEq, Repr

/-- Run a handler that only touches the widget state inside `Sys`. -/
def liftL (f : ListState → ListState × List Effect) (sys : Sys) : Sys × List Effect :=
  (({ sys with ls := (f sys.ls).1 }), (f sys.ls).2)

/-- Model of `List::on_query_input_event`: `Change` starts a search, `PressEnter`
runs the confirm action, everything else is ignored. -/
def on_query_input_event (count : Nat) (e : InputEv) (sys : Sys) : Sys × List Effect :=
  match e with
  | InputEv.change raw => on_change raw sys
  | InputEv.pressEnter => liftL (on_action_confirm count) sys
  | InputEv.other => (sys, [])

/-- Every event the event loop can deliver to the widget.  `leftClick` and
`rightClick` carry the row index, which exists only for rendered rows
(`ix < count`); `searchDone g` and `timerFire g` resume the supervising
task of generation `g`; `tick d` advances the clock by `d` ms. -/
inductive Ev where
  | queryInput (e : InputEv)
  | cancelAct
  | confirmAct
  | selectPrevAct
  | selectNextAct
  | leftClick (ix : Nat)
  | rightClick (ix : Nat)
  | clickOut
  | searchDone (g : Nat)
  | timerFire (g : Nat)
  | tick (d : Nat)
deriving DecidableEq, Repr

/-- One step of the event loop; `none` means the event is not enabled
(out-of-range row, or a resumption of a task that is cancelled or not at
that suspension point, or a timer that has not yet elapsed). -/
def step (count : Nat) (e : Ev) (sys : Sys) : Option (Sys × List Effect) :=
  match e with
  | Ev.queryInput ie => some (on_query_input_event count ie sys)
  | Ev.cancelAct => some (liftL on_action_cancel sys)
  | Ev.confirmAct => some (liftL (on_action_confirm count) sys)
  | Ev.selectPrevAct => some (liftL (on_action_select_prev count) sys)
  | Ev.selectNextAct => some (liftL (on_action_select_next count) sys)
  | Ev.leftClick ix =>
    if ix < count then some (liftL (on_left_mouse_down count ix) sys) else none
  | Ev.rightClick ix =>
    if ix < count then some (liftL (on_right_mouse_down ix) sys) else none
  | Ev.clickOut => some (liftL on_mouse_down_out sys)
  | Ev.searchDone g => on_search_done g sys
  | Ev.timerFire g => on_timer_fire g sys
  | Ev.tick d => some ({ sys with time := sys.time + d }, [])

/-- Run a list of events, skipping the ones that are not enabled, and
collect the effect trace. -/
def runEvents (count : Nat) : List Ev → Sys → Sys × List Effect
  | [], sys => (sys, [])
  | e :: es, sys =>
    match step count e sys with
    | some (sys1, effs) =>
      let p := runEvents count es sys1
      (p.1, effs ++ p.2)
    | none => runEvents count es sys

/-- Number of `perform_search` invocations in an effect trace. -/
def countSearches (effs : List Effect) : Nat :=
  effs.countP (fun e =>
    match e with
    | Effect.delegatePerformSearch _ => true
    | _ => false)

/-- Reachability by enabled steps. -/
inductive Reach (count : Nat) : Sys → Sys → Prop
  | refl (s : Sys) : Reach count s s
  | step (e : Ev) (s1 s2 s3 : Sys) (effs : List Effect) :
      step count e s1 = some (s2, effs) → Reach count s2 s3 → Reach count s1 s3

/-- A `ListState` with a given stored selection and all other fields as in
`initState`; used to instantiate theorems at concrete inputs. -/
def stateWithSelected (i : Option Nat) : ListState :=
  { selected_index := i, right_clicked_index := none, loading := false, last_query := none }

/-! Selection arithmetic. -/

theorem mod_succ_of_pos (a n : Nat) (h : 0 < n) :
    (a + 1) % n = if a % n < n - 1 then a % n + 1 else 0 := by
  have hm : a % n < n := Nat.mod_lt a h
  by_cases hlt : a % n < n - 1
  · rw [if_pos hlt, ← Nat.mod_add_mod, Nat.mod_eq_of_lt]
    have h1 : a % n + 1 < n - 1 + 1 := Nat.succ_lt_succ hlt
    rwa [Nat.sub_add_cancel h] at h1
  · rw [if_neg hlt, ← Nat.mod_add_mod]
    have heq : a % n = n - 1 := Nat.le_antisymm (Nat.le_pred_of_lt hm) (Nat.le_of_not_lt hlt)
    rw [heq, Nat.sub_add_cancel h, Nat.mod_self]

/-- What `SelectNext` stores, as a function of the previous selection. -/
theorem selectNextState_selected (count : Nat) (s : ListState) (h : 0 < count) :
    (selectNextState count s).selected_index =
      match s.selected_index with
      | some i => if i < count - 1 then some (i + 1) else some 0
      | none => some 0 := by
  have hne : ¬ count = 0 := Nat.pos_iff_ne_zero.mp h
  simp only [selectNextState, on_action_select_next, if_neg hne]

/-- What `SelectNext` stores when an index was selected. -/
theorem selectNextState_selected_some (count m : Nat) (s : ListState) (h : 0 < count)
    (hs : s.selected_index = some m) :
    (selectNextState count s).selected_index =
      if m < count - 1 then some (m + 1) else some 0 := by
  rw [selectNextState_selected count s h, hs]

/-- What `SelectPrev` stores, as a function of the previous selection. -/
theorem selectPrevState_selected (count : Nat) (s : ListState) (h : 0 < count) :
    (selectPrevState count s).selected_index =
      if s.selected_index.getD 0 > 0 then some (s.selected_index.getD 0 - 1)
      else some (count - 1) := by
  have hne : ¬ count = 0 := Nat.pos_iff_ne_zero.mp h
  simp only [selectPrevState, on_action_select_prev, if_neg hne]

/-- Iterating `SelectNext` from an empty selection cycles through the
indices: the k-th call stores `(k - 1) % count`. -/
theorem iterate_selectNext (count : Nat) (h : 0 < count) (s : ListState)
    (hs : s.selected_index = none) :
    ∀ k, 0 < k →
      (Nat.iterate (selectNextState count) k s).selected_index = some ((k - 1) % count) := by
  intro k
  induction k with
  | zero => intro hk; exact absurd hk (by simp)
  | succ k ih =>
    intro _
    rcases Nat.eq_zero_or_pos k with hk0 | hkpos
    · subst hk0
      rw [Function.iterate_succ_apply, Function.iterate_zero_apply,
        selectNextState_selected count s h, hs]
      simp
    · rw [Function.iterate_succ_apply', selectNextState_selected count _ h, ih hkpos]
      have hsub : k - 1 + 1 = k := Nat.succ_pred_eq_of_pos hkpos
      rw [Nat.succ_sub_one, ← hsub, mod_succ_of_pos (k - 1) count h, hsub, apply_ite some]

example : (selectNextState 3 initState).selected_index = some 0 := by decide

example :
    (Nat.iterate (selectNextState 3) 4 initState).selected_index = some 0 := by decide

example : (selectPrevState 3 initState).selected_index = some 2 := by decide

example :
    countSearches (runEvents 3 [Ev.queryInput (InputEv.change ['a', 'b']),
      Ev.queryInput (InputEv.change ['a', 'b'])] initSys).2 = 2 := by decide

example :
    countSearches (runEvents 3 [Ev.queryInput (InputEv.change ['a', 'b']),
      Ev.searchDone 0,
      Ev.queryInput (InputEv.change ['a', 'b', ' '])] initSys).2 = 1 := by decide

/-! Claim theorems: keyboard navigation. -/

/-- C1: for item count `count > 0`, starting from no selection, the k-th
`SelectNext` leaves the selection at `(k - 1) % count`; from `None` the
first call selects 0, a call at the last index wraps to 0, and a call at
any other index increments it by one. -/
theorem select_next_sequence (count k i : Nat) (s s1 s2 : ListState)
    (hc : 0 < count) (hk : 0 < k)
    (hs : s.selected_index = none)
    (h1 : s1.selected_index = some (count - 1))
    (h2 : s2.selected_index = some i) (hi : i < count - 1) :
    (Nat.iterate (selectNextState count) k s).selected_index = some ((k - 1) % count) ∧
    (selectNextState count s).selected_index = some 0 ∧
    (selectNextState count s1).selected_index = some 0 ∧
    (selectNextState count s2).selected_index = some (i + 1) := by
  refine ⟨iterate_selectNext count hc s hs k hk, ?_, ?_, ?_⟩
  · rw [selectNextState_selected count s hc, hs]
  · rw [selectNextState_selected count s1 hc, h1]
    simp
  · rw [selectNextState_selected count s2 hc, h2]
    simp [hi]

theorem select_next_sequence_witness :
    (Nat.iterate (selectNextState 3) 4 initState).selected_index = some ((4 - 1) % 3) ∧
    (selectNextState 3 initState).selected_index = some 0 ∧
    (selectNextState 3 (stateWithSelected (some 2))).selected_index = some 0 ∧
    (selectNextState 3 (stateWithSelected (some 0))).selected_index = some (0 + 1) :=
  select_next_sequence 3 4 0 initState (stateWithSelected (some 2)) (stateWithSelected (some 0))
    (by decide) (by decide) (by decide) (by decide) (by decide) (by decide)

/-- C2: for item count `count > 0`, `SelectPrev` from no selection wraps
to `count - 1`, from index 0 wraps to `count - 1`, and from any index
`i > 0` stores `i - 1`. -/
theorem select_prev_wraparound (count i : Nat) (sa sb sc : ListState)
    (hc : 0 < count)
    (ha : sa.selected_index = none)
    (hb : sb.selected_index = some 0)
    (hsel : sc.selected_index = some i) (hi : 0 < i) :
    (selectPrevState count sa).selected_index = some (count - 1) ∧
    (selectPrevState count sb).selected_index = some (count - 1) ∧
    (selectPrevState count sc).selected_index = some (i - 1) := by
  refine ⟨?_, ?_, ?_⟩
  · rw [selectPrevState_selected count sa hc, ha]
    simp
  · rw [selectPrevState_selected count sb hc, hb]
    simp
  · rw [selectPrevState_selected count sc hc, hsel]
    simp [hi]

theorem select_prev_wraparound_witness :
    (selectPrevState 3 initState).selected_index = some (3 - 1) ∧
    (selectPrevState 3 (stateWithSelected (some 0))).selected_index = some (3 - 1) ∧
    (selectPrevState 3 (stateWithSelected (some 2))).selected_index = some (2 - 1) :=
  select_prev_wraparound 3 2 initState (stateWithSelected (some 0)) (stateWithSelected (some 2))
    (by decide) (by decide) (by decide) (by decide) (by decide)

/-! Claim theorems: selection bounds, mouse presses, empty list. -/

/-- The left mouse-down listener only rewrites `right_clicked_index` and
`selected_index`; the confirm action never changes state. -/
theorem on_left_mouse_down_state (count ix : Nat) (s : ListState) :
    (on_left_mouse_down count ix s).1 =
      { s with right_clicked_index := none, selected_index := some ix } := by
  unfold on_left_mouse_down on_action_confirm
  split <;> rfl

/-- C6 counterexample: grow the selection to index 4 with five `SelectNext`
actions at item count 5, then shrink the count to 2; `SelectPrev` stores
`Some 3`, which is not `< 2`, so the claimed bound fails at the moment the
index is set. -/
theorem stale_select_prev_out_of_bounds :
    (on_action_select_prev 2 (Nat.iterate (selectNextState 5) 5 initState)).1.selected_index
        = some 3 ∧
    ¬ (3 < 2) := by decide

/-- C6 amended: at item count `count > 0`, `SelectNext` and a left click on
a rendered row always store an in-bounds index, and `SelectPrev` stores an
in-bounds index whenever the previous selection is `none` or at most
`count`; a stale selection `i ≥ count + 1` makes `SelectPrev` store the
out-of-bounds index `i - 1`. -/
theorem selection_bounds_amended (count ix i j1 j2 j3 j4 : Nat) (s1 s2 s3 s4 : ListState)
    (hc : 0 < count)
    (h1 : (selectNextState count s1).selected_index = some j1)
    (hix : ix < count)
    (h2 : (on_left_mouse_down count ix s2).1.selected_index = some j2)
    (h3 : s3.selected_index = some i) (hi : i ≤ count)
    (h4 : (selectPrevState count s3).selected_index = some j3)
    (h5 : s4.selected_index = none)
    (h6 : (selectPrevState count s4).selected_index = some j4) :
    j1 < count ∧ j2 < count ∧ j3 < count ∧ j4 < count := by
  refine ⟨?_, ?_, ?_, ?_⟩
  · rcases hsel : s1.selected_index with _ | m
    · rw [selectNextState_selected count s1 hc, hsel] at h1
      simp only [Option.some.injEq] at h1
      omega
    · rw [selectNextState_selected_some count m s1 hc hsel] at h1
      split at h1 <;> simp only [Option.some.injEq] at h1 <;> omega
  · rw [on_left_mouse_down_state] at h2
    simp only [Option.some.injEq] at h2
    omega
  · rw [selectPrevState_selected count s3 hc, h3] at h4
    by_cases hipos : 0 < i
    · rw [if_pos (by simpa using hipos)] at h4
      simp only [Option.getD_some, Option.some.injEq] at h4
      omega
    · rw [if_neg (by simpa using hipos)] at h4
      simp only [Option.some.injEq] at h4
      omega
  · rw [selectPrevState_selected count s4 hc, h5] at h6
    simp only [Option.getD_none, gt_iff_lt, Nat.lt_irrefl, if_false,
      Option.some.injEq] at h6
    omega

theorem selection_bounds_amended_witness :
    (selectNextState 2 (stateWithSelected (some 0))).selected_index = some 1 ∧
    (1 < 2 ∧ 1 < 2 ∧ 1 < 2 ∧ 1 < 2) :=
  ⟨by decide,
    selection_bounds_amended 2 1 2 1 1 1 1
      (stateWithSelected (some 0)) (stateWithSelected none)
      (stateWithSelected (some 2)) (stateWithSelected none)
      (by decide) (by decide) (by decide) (by decide) (by decide) (by decide)
      (by decide) (by decide) (by decide)⟩

/-- C7: a right press on row `ix` stores `right_clicked_index = Some ix`
and leaves the selection alone; a left press on row `ix` clears
`right_clicked_index`, stores `selected_index = Some ix` and immediately
fires the delegate's confirm; a press outside the list while a
right-clicked index is set clears it without touching the selection. -/
theorem mouse_press_semantics (count ix : Nat) (s1 s2 s3 : ListState)
    (hix : ix < count)
    (h3 : s3.right_clicked_index.isSome = true) :
    (on_right_mouse_down ix s1).1.right_clicked_index = some ix ∧
    (on_right_mouse_down ix s1).1.selected_index = s1.selected_index ∧
    (on_left_mouse_down count ix s2).1.right_clicked_index = none ∧
    (on_left_mouse_down count ix s2).1.selected_index = some ix ∧
    (on_left_mouse_down count ix s2).2 = [Effect.delegateConfirm (some ix), Effect.notify] ∧
    (on_mouse_down_out s3).1.right_clicked_index = none ∧
    (on_mouse_down_out s3).1.selected_index = s3.selected_index := by
  have hne : ¬ count = 0 := Nat.pos_iff_ne_zero.mp (Nat.lt_of_le_of_lt (Nat.zero_le ix) hix)
  refine ⟨rfl, rfl, ?_, ?_, ?_, ?_, ?_⟩
  · rw [on_left_mouse_down_state]
  · rw [on_left_mouse_down_state]
  · simp [on_left_mouse_down, on_action_confirm, hne]
  · simp [on_mouse_down_out, h3]
  · simp [on_mouse_down_out, h3]

theorem mouse_press_semantics_witness :
    (on_right_mouse_down 1 initState).1.right_clicked_index = some 1 ∧
    (on_right_mouse_down 1 initState).1.selected_index = initState.selected_index ∧
    (on_left_mouse_down 3 1 initState).1.right_clicked_index = none ∧
    (on_left_mouse_down 3 1 initState).1.selected_index = some 1 ∧
    (on_left_mouse_down 3 1 initState).2
      = [Effect.delegateConfirm (some 1), Effect.notify] ∧
    (on_mouse_down_out { initState with right_clicked_index := some 0 }).1.right_clicked_index
      = none ∧
    (on_mouse_down_out { initState with right_clicked_index := some 0 }).1.selected_index
      = ({ initState with right_clicked_index := some 0 } : ListState).selected_index :=
  mouse_press_semantics 3 1 initState initState { initState with right_clicked_index := some 0 }
    (by decide) (by decide)

/-- C8: with item count 0, `SelectNext`, `SelectPrev` and `Confirm` all
return the state unchanged and emit no effect at all: no delegate callback,
no scroll directive, no notification. -/
theorem zero_count_noops (s : ListState) :
    on_action_select_next 0 s = (s, []) ∧
    on_action_select_prev 0 s = (s, []) ∧
    on_action_confirm 0 s = (s, []) :=
  ⟨rfl, rfl, rfl⟩

/-- C9: with item count `count > 0` and no selection, the confirm action
(whether dispatched from the `Confirm` key action or from the query
input's `PressEnter` event) still calls the delegate's confirm, passing
`none` as the index. -/
theorem confirm_without_selection (count : Nat) (sys : Sys)
    (hc : 0 < count) (hs : sys.ls.selected_index = none) :
    on_query_input_event count InputEv.pressEnter sys
      = (sys, [Effect.delegateConfirm none, Effect.notify]) ∧
    on_action_confirm count sys.ls = (sys.ls, [Effect.delegateConfirm none, Effect.notify]) := by
  have hne : ¬ count = 0 := Nat.pos_iff_ne_zero.mp hc
  constructor
  · simp [on_query_input_event, liftL, on_action_confirm, hne, hs]
  · simp [on_action_confirm, hne, hs]

theorem confirm_without_selection_witness :
    on_query_input_event 3 InputEv.pressEnter initSys
      = (initSys, [Effect.delegateConfirm none, Effect.notify]) ∧
    on_action_confirm 3 initSys.ls
      = (initSys.ls, [Effect.delegateConfirm none, Effect.notify]) :=
  confirm_without_selection 3 initSys (by decide) (by decide)

/-- C10: a left press on row `ix` never emits the delegate's
`set_selected_index` notification — its whole effect trace is the confirm
call plus a notify — while `SelectNext`, `SelectPrev`, `Cancel` and the
public `set_selected_index` all forward the new index to the delegate. -/
theorem click_selection_skips_delegate (count ix : Nat) (w v : Option Nat)
    (s s2 s3 s4 : ListState) (hix : ix < count) :
    Effect.delegateSetSelectedIndex w ∉ (on_left_mouse_down count ix s).2 ∧
    (on_left_mouse_down count ix s).2 = [Effect.delegateConfirm (some ix), Effect.notify] ∧
    Effect.delegateSetSelectedIndex ((on_action_select_next count s2).1.selected_index)
      ∈ (on_action_select_next count s2).2 ∧
    Effect.delegateSetSelectedIndex ((on_action_select_prev count s3).1.selected_index)
      ∈ (on_action_select_prev count s3).2 ∧
    Effect.delegateSetSelectedIndex none ∈ (on_action_cancel s4).2 ∧
    (set_selected_index v s4).2 = [Effect.delegateSetSelectedIndex v] := by
  have hne : ¬ count = 0 := Nat.pos_iff_ne_zero.mp (Nat.lt_of_le_of_lt (Nat.zero_le ix) hix)
  have heffs : (on_left_mouse_down count ix s).2
      = [Effect.delegateConfirm (some ix), Effect.notify] := by
    simp [on_left_mouse_down, on_action_confirm, hne]
  refine ⟨?_, heffs, ?_, ?_, ?_, rfl⟩
  · rw [heffs]
    simp
  · simp [on_action_select_next, hne]
  · simp [on_action_select_prev, hne]
  · simp [on_action_cancel, set_selected_index]

theorem click_selection_skips_delegate_witness :
    Effect.delegateSetSelectedIndex (some 1) ∉ (on_left_mouse_down 3 1 initState).2 ∧
    (on_left_mouse_down 3 1 initState).2
      = [Effect.delegateConfirm (some 1), Effect.notify] ∧
    Effect.delegateSetSelectedIndex ((on_action_select_next 3 initState).1.selected_index)
      ∈ (on_action_select_next 3 initState).2 ∧
    Effect.delegateSetSelectedIndex ((on_action_select_prev 3 initState).1.selected_index)
      ∈ (on_action_select_prev 3 initState).2 ∧
    Effect.delegateSetSelectedIndex none ∈ (on_action_cancel initState).2 ∧
    (set_selected_index (some 0) initState).2 = [Effect.delegateSetSelectedIndex (some 0)] :=
  click_selection_skips_delegate 3 1 (some 1) (some 0) initState initState initState initState
    (by decide)

/-! Task bookkeeping lemmas. -/

theorem length_setTask (g : Nat) (f : TaskState → TaskState) (ts : List TaskState) :
    (setTask g f ts).length = ts.length := by
  induction ts generalizing g with
  | nil => simp [setTask]
  | cons t ts ih =>
    cases g with
    | zero => simp [setTask]
    | succ g => simp [setTask, ih]

theorem getElem?_setTask (g h : Nat) (f : TaskState → TaskState) (ts : List TaskState) :
    (setTask g f ts)[h]? = if h = g then (ts[g]?).map f else ts[h]? := by
  induction ts generalizing g h with
  | nil => simp [setTask]
  | cons t ts ih =>
    cases g with
    | zero =>
      cases h with
      | zero => simp [setTask]
      | succ h => simp [setTask]
    | succ g =>
      cases h with
      | zero => simp [setTask]
      | succ h => simpa [setTask] using ih g h

theorem length_cancelTask (cur : Option Nat) (ts : List TaskState) :
    (cancelTask cur ts).length = ts.length := by
  cases cur with
  | none => rfl
  | some g => simp [cancelTask, length_setTask]

theorem getElem?_cancelTask (cur : Option Nat) (ts : List TaskState) (h : Nat) :
    (cancelTask cur ts)[h]? =
      if cur = some h then (ts[h]?).map (fun t => { t with cancelled := true })
      else ts[h]? := by
  cases cur with
  | none => simp [cancelTask]
  | some g =>
    by_cases hg : h = g
    · subst hg
      simp [cancelTask, getElem?_setTask]
    · simp [cancelTask, getElem?_setTask, hg, Ne.symm hg]

/-- Everything a single enabled step can do to the task list and the
current-task slot: leave them alone; cancel the current task and append a
fresh one, making it current (`InputEvent::Change`); or resume a live task
at one of its two suspension points. -/
theorem step_shape (count : Nat) (e : Ev) (s1 s2 : Sys) (effs : List Effect)
    (hstep : step count e s1 = some (s2, effs)) :
    (s2.tasks = s1.tasks ∧ s2.current = s1.current) ∨
    ((∃ q, s2.tasks = cancelTask s1.current s1.tasks
            ++ [{ text := q, phase := Phase.awaitSearch, cancelled := false }])
        ∧ s2.current = some s1.tasks.length) ∨
    (∃ g t, s1.tasks[g]? = some t ∧ t.cancelled = false ∧ s2.current = s1.current ∧
        ((t.phase = Phase.awaitSearch ∧
          s2.tasks
            = setTask g (fun t0 => { t0 with phase := Phase.awaitTimer s1.time }) s1.tasks) ∨
         (∃ d0, t.phase = Phase.awaitTimer d0 ∧ d0 + 100 ≤ s1.time ∧ e = Ev.timerFire g ∧
          s2.tasks = setTask g (fun t0 => { t0 with phase := Phase.finished }) s1.tasks))) := by
  cases e with
  | queryInput ie =>
    cases ie with
    | change raw =>
      simp only [step, on_query_input_event, on_change, set_loading,
        Option.some.injEq] at hstep
      split at hstep
      · injection hstep with h1 h2
        subst h1
        left
        exact ⟨rfl, rfl⟩
      · injection hstep with h1 h2
        subst h1
        right; left
        exact ⟨⟨trimChars raw, rfl⟩, rfl⟩
    | pressEnter =>
      simp only [step, on_query_input_event, liftL, Option.some.injEq] at hstep
      injection hstep with h1 h2
      subst h1
      left
      exact ⟨rfl, rfl⟩
    | other =>
      simp only [step, on_query_input_event, Option.some.injEq] at hstep
      injection hstep with h1 h2
      subst h1
      left
      exact ⟨rfl, rfl⟩
  | cancelAct =>
    simp only [step, liftL, Option.some.injEq] at hstep
    injection hstep with h1 h2
    subst h1
    left
    exact ⟨rfl, rfl⟩
  | confirmAct =>
    simp only [step, liftL, Option.some.injEq] at hstep
    injection hstep with h1 h2
    subst h1
    left
    exact ⟨rfl, rfl⟩
  | selectPrevAct =>
    simp only [step, liftL, Option.some.injEq] at hstep
    injection hstep with h1 h2
    subst h1
    left
    exact ⟨rfl, rfl⟩
  | selectNextAct =>
    simp only [step, liftL, Option.some.injEq] at hstep
    injection hstep with h1 h2
    subst h1
    left
    exact ⟨rfl, rfl⟩
  | leftClick ix =>
    simp only [step, liftL] at hstep
    split at hstep
    · simp only [Option.some.injEq] at hstep
      injection hstep with h1 h2
      subst h1
      left
      exact ⟨rfl, rfl⟩
    · exact absurd hstep (by simp)
  | rightClick ix =>
    simp only [step, liftL] at hstep
    split at hstep
    · simp only [Option.some.injEq] at hstep
      injection hstep with h1 h2
      subst h1
      left
      exact ⟨rfl, rfl⟩
    · exact absurd hstep (by simp)
  | clickOut =>
    simp only [step, liftL, Option.some.injEq] at hstep
    injection hstep with h1 h2
    subst h1
    left
    exact ⟨rfl, rfl⟩
  | searchDone g =>
    simp only [step, on_search_done] at hstep
    rcases hts : s1.tasks[g]? with _ | t
    · simp [hts] at hstep
    · simp only [hts] at hstep
      rcases hcanc : t.cancelled with _ | _
      · simp only [hcanc] at hstep
        rcases hph : t.phase with _ | d0 | _
        · simp only [hph, Option.some.injEq] at hstep
          injection hstep with h1 h2
          subst h1
          right; right
          exact ⟨g, t, hts, hcanc, rfl, Or.inl ⟨hph, rfl⟩⟩
        · simp [hph] at hstep
        · simp [hph] at hstep
      · simp [hcanc] at hstep
  | timerFire g =>
    simp only [step, on_timer_fire, set_loading] at hstep
    rcases hts : s1.tasks[g]? with _ | t
    · simp [hts] at hstep
    · simp only [hts] at hstep
      rcases hcanc : t.cancelled with _ | _
      · simp only [hcanc] at hstep
        rcases hph : t.phase with _ | d0 | _
        · simp [hph] at hstep
        · simp only [hph] at hstep
          split at hstep
          · simp only [Option.some.injEq] at hstep
            injection hstep with h1 h2
            subst h1
            right; right
            exact ⟨g, t, hts, hcanc, rfl, Or.inr ⟨d0, hph, by assumption, rfl, rfl⟩⟩
          · exact absurd hstep (by simp)
        · simp [hph] at hstep
      · simp [hcanc] at hstep
  | tick d =>
    simp only [step, Option.some.injEq] at hstep
    injection hstep with h1 h2
    subst h1
    left
    exact ⟨rfl, rfl⟩

theorem getElem?_setTask_ne (g h : Nat) (f : TaskState → TaskState) (ts : List TaskState)
    (hne : h ≠ g) : (setTask g f ts)[h]? = ts[h]? := by
  rw [getElem?_setTask, if_neg hne]

/-- Cancellation is permanent: every enabled step keeps a cancelled task
in place and cancelled. -/
theorem cancelled_mono_step (count : Nat) (e : Ev) (s1 s2 : Sys) (effs : List Effect)
    (g : Nat) (t : TaskState) (hstep : step count e s1 = some (s2, effs))
    (ht : s1.tasks[g]? = some t) (hc : t.cancelled = true) :
    ∃ u, s2.tasks[g]? = some u ∧ u.cancelled = true := by
  have hlen : g < s1.tasks.length := (List.getElem?_eq_some.mp ht).1
  rcases step_shape count e s1 s2 effs hstep with
    ⟨hts, _⟩ | ⟨⟨q, hts⟩, _⟩ | ⟨g2, t2, ht2, hc2, _, hshape⟩
  · exact ⟨t, hts ▸ ht, hc⟩
  · rw [hts, List.getElem?_append,
      if_pos (by rw [length_cancelTask]; exact hlen), getElem?_cancelTask]
    by_cases hcur : s1.current = some g
    · rw [if_pos hcur, ht]
      exact ⟨_, rfl, rfl⟩
    · rw [if_neg hcur]
      exact ⟨t, ht, hc⟩
  · have hne : g ≠ g2 := by
      intro he
      subst he
      rw [ht] at ht2
      injection ht2 with h0
      rw [← h0, hc] at hc2
      exact Bool.noConfusion hc2
    rcases hshape with ⟨_, hts⟩ | ⟨d0, _, _, _, hts⟩ <;>
      exact ⟨t, by rw [hts, getElem?_setTask_ne _ _ _ _ hne]; exact ht, hc⟩

theorem cancelled_mono_reach (count : Nat) (s1 s3 : Sys) (g : Nat) (t : TaskState)
    (hreach : Reach count s1 s3) (ht : s1.tasks[g]? = some t) (hc : t.cancelled = true) :
    ∃ u, s3.tasks[g]? = some u ∧ u.cancelled = true := by
  induction hreach generalizing t with
  | refl s => exact ⟨t, ht, hc⟩
  | step e a b c effs hstep hr ih =>
    obtain ⟨u, hu, hcu⟩ := cancelled_mono_step count e a b effs g t hstep ht hc
    exact ih u hu hcu

/-- A cancelled supervising task can never resume: both of its remaining
continuations are disabled. -/
theorem cancelled_task_disabled (count g : Nat) (sys : Sys) (t : TaskState)
    (ht : sys.tasks[g]? = some t) (hc : t.cancelled = true) :
    step count (Ev.searchDone g) sys = none ∧ step count (Ev.timerFire g) sys = none := by
  rcases hph : t.phase with _ | d | _ <;>
    exact ⟨by simp [step, on_search_done, ht, hc, hph],
           by simp [step, on_timer_fire, ht, hc, hph]⟩

/-- The slot `_search_task` always refers to a spawned task. -/
def currentValid (sys : Sys) : Prop :=
  ∀ g, sys.current = some g → g < sys.tasks.length

theorem currentValid_step (count : Nat) (e : Ev) (s1 s2 : Sys) (effs : List Effect)
    (hstep : step count e s1 = some (s2, effs)) (hv : currentValid s1) :
    currentValid s2 := by
  rcases step_shape count e s1 s2 effs hstep with
    ⟨hts, hcur⟩ | ⟨⟨q, hts⟩, hcur⟩ | ⟨g2, t2, ht2, hc2, hcur, hshape⟩
  · intro g hg
    rw [hcur] at hg
    rw [hts]
    exact hv g hg
  · intro g hg
    rw [hcur] at hg
    injection hg with h0
    subst h0
    rw [hts]
    simp [length_cancelTask]
  · intro g hg
    rw [hcur] at hg
    rcases hshape with ⟨_, hts⟩ | ⟨d0, _, _, _, hts⟩ <;> rw [hts, length_setTask] <;>
      exact hv g hg

theorem currentValid_reach (count : Nat) (s1 s2 : Sys)
    (hreach : Reach count s1 s2) (hv : currentValid s1) : currentValid s2 := by
  induction hreach with
  | refl s => exact hv
  | step e a b c effs hstep hr ih =>
    exact ih (currentValid_step count e a b effs hstep hv)

/-- Once a supervising task has started its 100 ms timer at instant `d`,
it is forever either still waiting on that same timer or finished. -/
def timerPhaseInv (g d : Nat) (sys : Sys) : Prop :=
  ∃ u, sys.tasks[g]? = some u ∧
    (u.phase = Phase.awaitTimer d ∨ u.phase = Phase.finished)

theorem timerPhaseInv_step (count : Nat) (e : Ev) (s1 s2 : Sys) (effs : List Effect)
    (g d : Nat) (hstep : step count e s1 = some (s2, effs))
    (hinv : timerPhaseInv g d s1) : timerPhaseInv g d s2 := by
  obtain ⟨u, hu, hph⟩ := hinv
  have hlen : g < s1.tasks.length := (List.getElem?_eq_some.mp hu).1
  rcases step_shape count e s1 s2 effs hstep with
    ⟨hts, _⟩ | ⟨⟨q, hts⟩, _⟩ | ⟨g2, t2, ht2, hc2, _, hshape⟩
  · exact ⟨u, hts ▸ hu, hph⟩
  · rw [timerPhaseInv, hts, List.getElem?_append,
      if_pos (by rw [length_cancelTask]; exact hlen), getElem?_cancelTask]
    by_cases hcur : s1.current = some g
    · rw [if_pos hcur, hu]
      exact ⟨_, rfl, hph⟩
    · rw [if_neg hcur]
      exact ⟨u, hu, hph⟩
  · by_cases hgg : g = g2
    · subst hgg
      rw [hu] at ht2
      injection ht2 with h0
      subst h0
      rcases hshape with ⟨hph2, hts⟩ | ⟨d0, hph2, hle, hev, hts⟩
      · rcases hph with hph | hph <;> rw [hph2] at hph <;> exact Phase.noConfusion hph
      · refine ⟨{ u with phase := Phase.finished }, ?_, Or.inr rfl⟩
        rw [hts, getElem?_setTask, if_pos rfl, hu]
        rfl
    · rcases hshape with ⟨_, hts⟩ | ⟨d0, _, _, _, hts⟩ <;>
        exact ⟨u, by rw [hts, getElem?_setTask_ne _ _ _ _ hgg]; exact hu, hph⟩

theorem timerPhaseInv_reach (count : Nat) (s1 s2 : Sys) (g d : Nat)
    (hreach : Reach count s1 s2) (hinv : timerPhaseInv g d s1) :
    timerPhaseInv g d s2 := by
  induction hreach with
  | refl s => exact hinv
  | step e a b c effs hstep hr ih =>
    exact ih (timerPhaseInv_step count e a b effs g d hstep hinv)

/-- The only step that turns the loading flag from true to false is the
final segment of a live supervising task, fired by its 100 ms timer. -/
theorem loading_clear_only_timer (count : Nat) (e : Ev) (s1 s2 : Sys) (effs : List Effect)
    (hstep : step count e s1 = some (s2, effs))
    (hl : s1.ls.loading = true) (hl2 : s2.ls.loading = false) :
    ∃ g, e = Ev.timerFire g := by
  cases e with
  | queryInput ie =>
    cases ie with
    | change raw =>
      simp only [step, on_query_input_event, on_change, set_loading,
        Option.some.injEq] at hstep
      split at hstep
      · injection hstep with h1 h2
        subst h1
        rw [hl] at hl2
        exact Bool.noConfusion hl2
      · injection hstep with h1 h2
        subst h1
        exact Bool.noConfusion hl2
    | pressEnter =>
      simp only [step, on_query_input_event, liftL, Option.some.injEq] at hstep
      injection hstep with h1 h2
      subst h1
      simp only [on_action_confirm] at hl2
      split at hl2 <;> (rw [hl] at hl2; exact Bool.noConfusion hl2)
    | other =>
      simp only [step, on_query_input_event, Option.some.injEq] at hstep
      injection hstep with h1 h2
      subst h1
      rw [hl] at hl2
      exact Bool.noConfusion hl2
  | cancelAct =>
    simp only [step, liftL, Option.some.injEq] at hstep
    injection hstep with h1 h2
    subst h1
    simp only [on_action_cancel, set_selected_index] at hl2
    rw [hl] at hl2
    exact Bool.noConfusion hl2
  | confirmAct =>
    simp only [step, liftL, Option.some.injEq] at hstep
    injection hstep with h1 h2
    subst h1
    simp only [on_action_confirm] at hl2
    split at hl2 <;> (rw [hl] at hl2; exact Bool.noConfusion hl2)
  | selectPrevAct =>
    simp only [step, liftL, Option.some.injEq] at hstep
    injection hstep with h1 h2
    subst h1
    simp only [on_action_select_prev] at hl2
    split at hl2 <;> (rw [hl] at hl2; exact Bool.noConfusion hl2)
  | selectNextAct =>
    simp only [step, liftL, Option.some.injEq] at hstep
    injection hstep with h1 h2
    subst h1
    simp only [on_action_select_next] at hl2
    split at hl2 <;> (rw [hl] at hl2; exact Bool.noConfusion hl2)
  | leftClick ix =>
    simp only [step, liftL] at hstep
    split at hstep
    · simp only [Option.some.injEq] at hstep
      injection hstep with h1 h2
      subst h1
      simp only [on_left_mouse_down, on_action_confirm] at hl2
      split at hl2 <;> (rw [hl] at hl2; exact Bool.noConfusion hl2)
    · exact absurd hstep (by simp)
  | rightClick ix =>
    simp only [step, liftL] at hstep
    split at hstep
    · simp only [Option.some.injEq] at hstep
      injection hstep with h1 h2
      subst h1
      simp only [on_right_mouse_down] at hl2
      rw [hl] at hl2
      exact Bool.noConfusion hl2
    · exact absurd hstep (by simp)
  | clickOut =>
    simp only [step, liftL, Option.some.injEq] at hstep
    injection hstep with h1 h2
    subst h1
    simp only [on_mouse_down_out] at hl2
    split at hl2 <;> (rw [hl] at hl2; exact Bool.noConfusion hl2)
  | searchDone g =>
    simp only [step, on_search_done] at hstep
    rcases hts : s1.tasks[g]? with _ | t
    · simp [hts] at hstep
    · simp only [hts] at hstep
      rcases hcanc : t.cancelled with _ | _
      · simp only [hcanc] at hstep
        rcases hph : t.phase with _ | d0 | _
        · simp only [hph, Option.some.injEq] at hstep
          injection hstep with h1 h2
          subst h1
          rw [hl] at hl2
          exact Bool.noConfusion hl2
        · simp [hph] at hstep
        · simp [hph] at hstep
      · simp [hcanc] at hstep
  | timerFire g => exact ⟨g, rfl⟩
  | tick d =>
    simp only [step, Option.some.injEq] at hstep
    injection hstep with h1 h2
    subst h1
    rw [hl] at hl2
    exact Bool.noConfusion hl2

/-! Claim theorems: the asynchronous search lifecycle. -/

/-- C3: once a second query change replaces the supervising task, the
superseded task can never resume: from any reachable later state both of
its continuations (the post-search segment and the delayed loading-clear)
are disabled, so in particular it can never turn `loading` off after the
second search turned it on. -/
theorem superseded_task_never_resumes (count : Nat) (s1 s2 s3 : Sys) (raw : Query)
    (g1 : Nat) (effs : List Effect)
    (hreach1 : Reach count initSys s1)
    (hg1 : s1.current = some g1)
    (hnew : ¬ s1.ls.last_query = some (trimChars raw))
    (hchange : step count (Ev.queryInput (InputEv.change raw)) s1 = some (s2, effs))
    (hreach2 : Reach count s2 s3) :
    step count (Ev.searchDone g1) s3 = none ∧ step count (Ev.timerFire g1) s3 = none := by
  have hv : currentValid s1 :=
    currentValid_reach count initSys s1 hreach1 (fun g hg => Option.noConfusion hg)
  have hlen : g1 < s1.tasks.length := hv g1 hg1
  have ht1 : s1.tasks[g1]? = some s1.tasks[g1] := List.getElem?_eq_getElem hlen
  simp only [step, on_query_input_event, on_change, set_loading, if_neg hnew,
    Option.some.injEq] at hchange
  injection hchange with h1 h2
  subst h1
  have hts2 : (cancelTask s1.current s1.tasks
      ++ [{ text := trimChars raw, phase := Phase.awaitSearch, cancelled := false }])[g1]?
      = some { s1.tasks[g1] with cancelled := true } := by
    rw [List.getElem?_append, if_pos (by rw [length_cancelTask]; exact hlen),
      getElem?_cancelTask, if_pos hg1, ht1]
    rfl
  obtain ⟨u, hu, hcu⟩ := cancelled_mono_reach count _ s3 g1 _ hreach2 hts2 rfl
  exact cancelled_task_disabled count g1 s3 u hu hcu

/-- Concrete run used to instantiate C3: a search for "a" is started and,
before it completes, replaced by a search for "b". -/
def sysAfterFirstChange : Sys := (on_change ['a'] initSys).1

def sysAfterSecondChange : Sys := (on_change ['b'] sysAfterFirstChange).1

theorem superseded_task_never_resumes_witness :
    step 1 (Ev.searchDone 0) sysAfterSecondChange = none ∧
    step 1 (Ev.timerFire 0) sysAfterSecondChange = none :=
  superseded_task_never_resumes 1 sysAfterFirstChange sysAfterSecondChange
    sysAfterSecondChange ['b'] 0 (on_change ['b'] sysAfterFirstChange).2
    (Reach.step (Ev.queryInput (InputEv.change ['a'])) initSys sysAfterFirstChange
      sysAfterFirstChange (on_change ['a'] initSys).2 rfl (Reach.refl sysAfterFirstChange))
    rfl (by decide) rfl (Reach.refl sysAfterSecondChange)

/-- C4: when the supervising task of generation `g` observes search
completion, it emits the scroll-to-top directive and then the commit of
the trimmed text as the last query, in that order, before its delay; its
final segment can only fire at least 100 ms after that completion, and it
is the only kind of step that ever turns the loading flag from true to
false. -/
theorem loading_clear_requires_delay (count g : Nat) (sa sb sc sd e2s e2s2 : Sys)
    (t : TaskState) (effsb effsd effs2 : List Effect) (e2 : Ev)
    (ht : sa.tasks[g]? = some t)
    (hdone : step count (Ev.searchDone g) sa = some (sb, effsb))
    (hreach : Reach count sb sc)
    (hfire : step count (Ev.timerFire g) sc = some (sd, effsd))
    (hstep2 : step count e2 e2s = some (e2s2, effs2))
    (hl : e2s.ls.loading = true) (hl2 : e2s2.ls.loading = false) :
    effsb = [Effect.scrollToItem 0, Effect.commitQuery t.text] ∧
    sb.ls.last_query = some t.text ∧
    sa.time + 100 ≤ sc.time ∧
    sd.ls.loading = false ∧
    ∃ g2, e2 = Ev.timerFire g2 := by
  have hlen : g < sa.tasks.length := (List.getElem?_eq_some.mp ht).1
  simp only [step, on_search_done, ht] at hdone
  rcases hcanc : t.cancelled with _ | _
  · simp only [hcanc] at hdone
    rcases hph : t.phase with _ | d0 | _
    · simp only [hph, Option.some.injEq] at hdone
      injection hdone with h1 h2
      subst h1
      refine ⟨h2.symm, rfl, ?_, ?_, ?_⟩
      · -- the task is at `awaitTimer sa.time` in sb, hence still so (or
        -- finished) in sc; the timer guard then gives the bound
        have hinv : timerPhaseInv g sa.time
            { sa with
                ls := { sa.ls with last_query := some t.text }
                tasks := setTask g
                  (fun t0 => { t0 with phase := Phase.awaitTimer sa.time }) sa.tasks } := by
          refine ⟨{ t with phase := Phase.awaitTimer sa.time }, ?_, Or.inl rfl⟩
          show (setTask g _ sa.tasks)[g]? = _
          rw [getElem?_setTask, if_pos rfl, ht]
          rfl
        obtain ⟨u, hu, hphu⟩ := timerPhaseInv_reach count _ sc g sa.time hreach hinv
        simp only [step, on_timer_fire, hu] at hfire
        rcases hcancu : u.cancelled with _ | _
        · simp only [hcancu] at hfire
          rcases hphu2 : u.phase with _ | d1 | _
          · simp [hphu2] at hfire
          · rcases hphu with hphu | hphu
            · rw [hphu2] at hphu
              injection hphu with h3
              subst h3
              simp only [hphu2] at hfire
              split at hfire
              · assumption
              · exact absurd hfire (by simp)
            · rw [hphu2] at hphu
              exact Phase.noConfusion hphu
          · simp [hphu2] at hfire
        · simp [hcancu] at hfire
      · -- the fired segment runs `set_loading false`
        have hinv : timerPhaseInv g sa.time
            { sa with
                ls := { sa.ls with last_query := some t.text }
                tasks := setTask g
                  (fun t0 => { t0 with phase := Phase.awaitTimer sa.time }) sa.tasks } := by
          refine ⟨{ t with phase := Phase.awaitTimer sa.time }, ?_, Or.inl rfl⟩
          show (setTask g _ sa.tasks)[g]? = _
          rw [getElem?_setTask, if_pos rfl, ht]
          rfl
        obtain ⟨u, hu, hphu⟩ := timerPhaseInv_reach count _ sc g sa.time hreach hinv
        simp only [step, on_timer_fire, set_loading, hu] at hfire
        rcases hcancu : u.cancelled with _ | _
        · simp only [hcancu] at hfire
          rcases hphu2 : u.phase with _ | d1 | _
          · simp [hphu2] at hfire
          · simp only [hphu2] at hfire
            split at hfire
            · simp only [Option.some.injEq] at hfire
              injection hfire with h3 h4
              subst h3
              rfl
            · exact absurd hfire (by simp)
          · simp [hphu2] at hfire
        · simp [hcancu] at hfire
      · exact loading_clear_only_timer count e2 e2s e2s2 effs2 hstep2 hl hl2
    · simp [hph] at hdone
    · simp [hph] at hdone
  · simp [hcanc] at hdone

/-- Concrete run used to instantiate C4: search for "ab", completion at
time 0, a 100 ms tick, then the timer segment. -/
def w4sa : Sys := (on_change ['a', 'b'] initSys).1

def w4sbp : Sys × List Effect := (step 1 (Ev.searchDone 0) w4sa).getD (initSys, [])

def w4sc : Sys := ((step 1 (Ev.tick 100) w4sbp.1).getD (initSys, [])).1

def w4sdp : Sys × List Effect := (step 1 (Ev.timerFire 0) w4sc).getD (initSys, [])

theorem loading_clear_requires_delay_witness :
    w4sbp.2 = [Effect.scrollToItem 0, Effect.commitQuery ['a', 'b']] ∧
    w4sbp.1.ls.last_query = some ['a', 'b'] ∧
    w4sa.time + 100 ≤ w4sc.time ∧
    w4sdp.1.ls.loading = false ∧
    ∃ g2, Ev.timerFire 0 = Ev.timerFire g2 :=
  loading_clear_requires_delay 1 0 w4sa w4sbp.1 w4sc w4sdp.1 w4sc w4sdp.1
    { text := ['a', 'b'], phase := Phase.awaitSearch, cancelled := false }
    w4sbp.2 w4sdp.2 w4sdp.2 (Ev.timerFire 0)
    (by decide) rfl
    (Reach.step (Ev.tick 100) w4sbp.1 w4sc w4sc [] rfl (Reach.refl w4sc))
    rfl rfl (by decide) (by decide)

/-! Claim theorems: query dedup. -/

theorem trimLeftChars_all_ws (l : Query) (h : ∀ c ∈ l, c.isWhitespace = true) :
    trimLeftChars l = [] := by
  induction l with
  | nil => rfl
  | cons c cs ih =>
    simp only [trimLeftChars]
    rw [if_pos (h c (List.mem_cons_self c cs))]
    exact ih (fun x hx => h x (List.mem_cons_of_mem c hx))

theorem trimChars_all_ws (l : Query) (h : ∀ c ∈ l, c.isWhitespace = true) :
    trimChars l = [] := by
  unfold trimChars
  rw [trimLeftChars_all_ws l h]
  rfl

/-- C5 counterexample: two `Change` events carrying the same text "ab",
delivered before the event loop runs the first supervising task, invoke
`perform_search` twice, not once — `last_query` is only recorded after the
first search completes, so the second event is not deduplicated. -/
theorem duplicate_query_double_search :
    countSearches (runEvents 3
        [Ev.queryInput (InputEv.change ['a', 'b']),
         Ev.queryInput (InputEv.change ['a', 'b'])] initSys).2 = 2 ∧
    ¬ countSearches (runEvents 3
        [Ev.queryInput (InputEv.change ['a', 'b']),
         Ev.queryInput (InputEv.change ['a', 'b'])] initSys).2 = 1 := by
  decide

/-- C5 amended: a query-change event first trims the raw text, and is
ignored entirely (no state change, no effect) when the trimmed text
equals the last committed query; otherwise it sets loading and invokes
exactly one `perform_search` with the trimmed text.  The last committed
query is recorded only when the supervising task observes search
completion, so a second identical post-trim query is deduplicated — one
`perform_search` in total — provided that completion was processed before
the second event (the counterexample shows two searches otherwise).
Whitespace-only text trims to the empty query and is compared by equality
like any other. -/
theorem query_dedup_amended (count : Nat) (sys sys2 : Sys)
    (raw raw2 raw3 raw4 raw5 : Query)
    (hdup : sys.ls.last_query = some (trimChars raw))
    (hnew : ¬ sys2.ls.last_query = some (trimChars raw2))
    (htrim : trimChars raw4 = trimChars raw3)
    (hws : ∀ c ∈ raw5, c.isWhitespace = true) :
    on_change raw sys = (sys, []) ∧
    (on_change raw2 sys2).2
      = [Effect.inputSetLoading true, Effect.notify,
         Effect.delegatePerformSearch (trimChars raw2)] ∧
    countSearches (runEvents count
        [Ev.queryInput (InputEv.change raw3), Ev.searchDone 0,
         Ev.queryInput (InputEv.change raw4)] initSys).2 = 1 ∧
    (on_change raw5 initSys).2
      = [Effect.inputSetLoading true, Effect.notify,
         Effect.delegatePerformSearch []] := by
  refine ⟨?_, ?_, ?_, ?_⟩
  · simp [on_change, hdup]
  · simp [on_change, set_loading, hnew]
  · simp [runEvents, step, on_query_input_event, on_change, on_search_done, set_loading,
      initSys, initState, setTask, cancelTask, countSearches, List.countP, List.countP.go,
      htrim]
  · simp [on_change, set_loading, initSys, initState, trimChars_all_ws raw5 hws]

def sysCommittedAB : Sys :=
  { ls := { selected_index := none, right_clicked_index := none, loading := true,
            last_query := some ['a', 'b'] },
    time := 0,
    tasks := [{ text := ['a', 'b'], phase := Phase.awaitTimer 0, cancelled := false }],
    current := some 0 }

theorem query_dedup_amended_witness :
    on_change ['a', 'b', ' '] sysCommittedAB = (sysCommittedAB, []) ∧
    (on_change ['c'] initSys).2
      = [Effect.inputSetLoading true, Effect.notify,
         Effect.delegatePerformSearch (trimChars ['c'])] ∧
    countSearches (runEvents 3
        [Ev.queryInput (InputEv.change ['a', 'b']), Ev.searchDone 0,
         Ev.queryInput (InputEv.change ['a', 'b', ' '])] initSys).2 = 1 ∧
    (on_change [' ', ' '] initSys).2
      = [Effect.inputSetLoading true, Effect.notify,
         Effect.delegatePerformSearch []] :=
  query_dedup_amended 3 sysCommittedAB initSys
    ['a', 'b', ' '] ['c'] ['a', 'b'] ['a', 'b', ' '] [' ', ' ']
    (by decide) (by decide) (by decide) (by decide)

end GpuiList
